import Mathlib

/-!
Verification of a segregated free-list memory allocator (src/allocator.c).

The C source is shallowly embedded:

* Machine integers are modelled as `Nat` (for `size_t` values and addresses)
  or `Int` (for C `int` values); the one place where unsigned wraparound
  matters (`return -1` converted to `size_t` in `xxmalloc_usable_size`)
  is written out as `2 ^ 64 - 1`.
* The page carver's stores into the fresh page are modelled word by word
  (`allocate_blocks` below writes into an explicit memory map), and the
  intrusive singly linked free lists are modelled as Lean `List Nat`s of
  block addresses; the theorem `allocate_blocks_chain_eq` shows that the
  in-memory chain produced by the carve loop is exactly the address list
  the abstract state machine installs.
* `mmap` is modelled as handing out fresh page-aligned addresses
  (`(nextPage + 1) * PAGE_SIZE`, so address 0 is never mapped) from a
  monotone counter, zero-filled; a `Bool` parameter `mmapOk` says whether
  the operating system grants the mapping.  A mapping failure makes the
  operation terminate the process after emitting a diagnostic, modelled
  by `Except Diag`.
-/

/-- `MIN_MALLOC_SIZE` from the source. -/
def MIN_MALLOC_SIZE : Nat := 16

/-- `PAGE_SIZE` (0x1000) from the source. -/
def PAGE_SIZE : Nat := 0x1000

/-- `MAGIC_NUMBER` (0xA991E) from the source, the sentinel tag written at
the start of every carved page. -/
def MAGIC_NUMBER : Nat := 0xA991E

/-- `ROUND_UP(x, y)`: round `x` up to the next multiple of `y`. -/
def ROUND_UP (x y : Nat) : Nat := if x % y = 0 then x else x + (y - x % y)

/-- The value `(size_t)(-1)` returned by `xxmalloc_usable_size` on a header
tag mismatch (`return - 1;` with a `size_t` return type, on the LP64 model
the source targets). -/
def USABLE_INVALID : Nat := 2 ^ 64 - 1

/-- The eight size classes, in increasing order: the widths served by the
free lists (`freelists[0] = 16, ..., freelists[7] = 2048`). -/
def classList : List Nat := [16, 32, 64, 128, 256, 512, 1024, 2048]

/-- `roundPowers` from the source: round a requested size up to the next
size class, or `-1` for requests above 2048.  The C parameter is an `int`,
so the argument is an `Int` and negative requests fall into the
`size <= 16` branch. -/
def roundPowers (size : Int) : Int :=
  if size ≤ 16 then 16
  else if size ≤ 32 then 32
  else if size ≤ 64 then 64
  else if size ≤ 128 then 128
  else if size ≤ 256 then 256
  else if size ≤ 512 then 512
  else if size ≤ 1024 then 1024
  else if size ≤ 2048 then 2048
  else -1

/-- Count of trailing zero bits with explicit fuel (structural recursion,
so that it reduces inside the kernel); `ctz` instantiates the fuel. -/
def ctzAux : Nat → Nat → Nat
  | 0, _ => 0
  | fuel + 1, n =>
    if n % 2 = 1 ∨ n = 0 then 0
    else ctzAux fuel (n / 2) + 1

/-- Count of trailing zero bits, modelling `__builtin_ctzl` (only ever
applied to nonzero values in the source; we extend with `ctz 0 = 0`).
`n` halvings of fuel always suffice for an argument `n`. -/
def ctz (n : Nat) : Nat := ctzAux n n

/-- `roundPowersList` from the source: the free-list index of a size class,
`__builtin_ctzl(size) - 4`.  Callers only pass class values (16 … 2048),
for which the result is the index 0 … 7. -/
def roundPowersList (size : Nat) : Nat := ctz size - 4

/-- `Modelled from the spec:` the Size-Class Table's `classify` operation as
§4.1 words it — "rounds `requested` up to the smallest member of {16,…,2048}
that is ≥ `requested`; if `requested` exceeds 2048, returns `Oversized`"
(Oversized rendered as `-1`, the source's encoding).  This definition exists
only to be compared with `roundPowers`, which is translated from the code. -/
def specClassify (requested : Int) : Int :=
  if 2048 < requested then -1
  else ((classList.map (fun c => (c : Int))).find? (fun c => requested ≤ c)).getD (-1)

section PageCarver

/-- A fresh page's memory, one word per address; `none` is untouched
(zero-filled by the anonymous mapping). -/
def Mem : Type := Nat → Option Nat

/-- Store one word. -/
def writeMem (m : Mem) (a v : Nat) : Mem :=
  fun x => if x = a then some v else m x

/-- The carve loop of `allocate_blocks`:
`while (offset < PAGE_SIZE) { node = page + offset; offset += size; node->next = page + offset; }`.
`fuel` bounds the number of iterations (the source's loop runs at most
`PAGE_SIZE / size` times, so `PAGE_SIZE` fuel is always enough); the result
is the memory after the loop together with the final value of `offset`. -/
def carveLoop : Nat → Nat → Nat → Nat → Mem → Mem × Nat
  | 0, _, _, offset, m => (m, offset)
  | fuel + 1, base, size, offset, m =>
    if offset < PAGE_SIZE then
      carveLoop fuel base size (offset + size)
        (writeMem m (base + offset) (base + offset + size))
    else (m, offset)

/-- `allocate_blocks` from the source, at the level of individual stores
into the freshly mapped page at `base`: write the header
(`magic_number` at offset 0, `block_size` at offset 8), run the carve loop
from `offset = size`, null out the link of the block at `offset - size`,
and return the address `base + size` of the first block together with the
final memory. -/
def allocate_blocks (base size : Nat) : Mem × Nat :=
  let m0 : Mem := fun _ => none
  let m1 := writeMem (writeMem m0 base MAGIC_NUMBER) (base + 8) size
  let lo := carveLoop PAGE_SIZE base size size m1
  let m2 := writeMem lo.1 (base + lo.2 - size) 0
  (m2, base + size)

/-- Follow `next` links through a memory, starting from a head pointer,
until a null (0) pointer; untouched memory reads as 0.  `fuel` bounds the
walk. -/
def readChain (m : Mem) : Nat → Nat → List Nat
  | 0, _ => []
  | fuel + 1, p =>
    if p = 0 then []
    else p :: readChain m fuel ((m p).getD 0)

/-- The block addresses a carved page at `base` contributes for class
`size`: offsets `size, 2·size, …, PAGE_SIZE − size`, in increasing order.
This is the abstract form of the chain `allocate_blocks` builds. -/
def blockList (base size : Nat) : List Nat :=
  (List.range (PAGE_SIZE / size - 1)).map (fun i => base + (i + 1) * size)

end PageCarver

section StateMachine

/-- The allocator's global state.

* `freelists i` is the chain of block addresses threaded on
  `freelists[i]` (head first; `[]` is the NULL list).  Indices outside
  0 … 7 are never touched by the code.
* `pages` records every page carved by `allocate_blocks`, newest first:
  the pair of the page's base address and the `block_size` stored in its
  header.  An entry `(b, s)` means the header words at `b` hold
  (`MAGIC_NUMBER`, `s`); addresses whose page has no entry read a
  non-matching tag (zero-filled oversized regions) or are unmapped.
* `oversized` records the directly mapped oversized regions (base, length
  in bytes); they carry no header.
* `nextPage` is the mmap model's monotone counter: page indices
  `1 … nextPage` have been handed out, and a fresh mapping starts at
  `(nextPage + 1) * PAGE_SIZE`. -/
structure AllocState where
  freelists : Nat → List Nat
  pages : List (Nat × Nat)
  oversized : List (Nat × Nat)
  nextPage : Nat

/-- The initial state: all eight list heads NULL, no pages mapped. -/
def initState : AllocState :=
  { freelists := fun _ => [], pages := [], oversized := [], nextPage := 0 }

/-- Update one free-list head. -/
def setList (f : Nat → List Nat) (i : Nat) (l : List Nat) : Nat → List Nat :=
  fun j => if j = i then l else f j

/-- Round an address down to the start of its page
(`free_address - (free_address % PAGE_SIZE)`). -/
def pageStart (p : Nat) : Nat := p - p % PAGE_SIZE

/-- Read the header of the page based at `base`: `some blockSize` when the
magic number there matches `MAGIC_NUMBER` (the page is in `pages`), `none`
otherwise. -/
def headerLookup (st : AllocState) (base : Nat) : Option Nat :=
  (st.pages.find? (fun pr => pr.1 == base)).map (fun pr => pr.2)

/-- `xxmalloc_usable_size` from the source: 0 for NULL; otherwise round the
pointer down to its page boundary and read the header there — the recorded
`block_size` on a magic-number match, `(size_t)(-1)` on a mismatch. -/
def xxmalloc_usable_size (st : AllocState) (ptr : Nat) : Nat :=
  if ptr = 0 then 0
  else
    match headerLookup st (pageStart ptr) with
    | some bs => bs
    | none => USABLE_INVALID

/-- `removeFirst` from the source: advance a list head to `lst->next`. -/
def removeFirst (lst : List Nat) : List Nat := lst.tail

/-- `addFirst` from the source: make `freeNode` the new head, its link
pointing at the old head.  In the C this link is an 8-byte store
`new->next = first` at the raw address `freeNode`; the list form records
only the resulting chain and elides that store's byte footprint, which
can alias a page header when `freeNode` lies in a header region or within
8 bytes of a page end — `xxfreeStoreAddr` below models the footprint
itself, and the C8 analysis shows the aliasing is real. -/
def addFirst (lst : List Nat) (freeNode : Nat) : List Nat := freeNode :: lst

/-- A diagnostic emitted on a fatal path: either through the Diagnostic
Sink `log_message`, or through the C library's `perror`. -/
inductive Diag where
  | viaSink : String → Diag
  | viaPerror : String → Diag
deriving DecidableEq

/-- Is a finished `xxmalloc` run a termination that went through the
Diagnostic Sink (`log_message`)? -/
def emittedViaSink : Except Diag (Nat × AllocState) → Bool
  | .error (.viaSink _) => true
  | _ => false

/-- `xxmalloc` from the source.  `mmapOk` models whether the operating
system grants a mapping; `.error d` models "emit diagnostic `d` and
`exit`" (the call never returns to the caller), `.ok (p, st')` models
returning pointer `p` with the allocator state now `st'`.

* `size > 2048`: round up to a page multiple and map an oversized region
  directly (`log_message` + `exit(2)` on failure); no header is written.
* otherwise: round to a size class, and if that class's list head is NULL
  first carve a fresh page (`allocate_blocks`, whose in-memory chain is
  `blockList` by `allocate_blocks_chain_eq`; `perror` + `exit` on mapping
  failure), then pop and return the head block. -/
def xxmalloc (mmapOk : Bool) (st : AllocState) (size : Nat) :
    Except Diag (Nat × AllocState) :=
  if 2048 < size then
    let rsize := ROUND_UP size PAGE_SIZE
    if mmapOk then
      let base := (st.nextPage + 1) * PAGE_SIZE
      .ok (base,
        { st with
          oversized := (base, rsize) :: st.oversized
          nextPage := st.nextPage + rsize / PAGE_SIZE })
    else .error (.viaSink "mmap failed! Giving up.\n")
  else
    let csize := (roundPowers (size : Int)).toNat
    let index := roundPowersList csize
    match st.freelists index with
    | [] =>
      if mmapOk then
        let base := (st.nextPage + 1) * PAGE_SIZE
        let chain := blockList base csize
        let st' : AllocState :=
          { st with
            freelists := setList st.freelists index (removeFirst chain)
            pages := (base, csize) :: st.pages
            nextPage := st.nextPage + 1 }
        .ok (base + csize, st')
      else .error (.viaPerror "failed to allocate space")
    | first :: rest =>
      .ok (first, { st with freelists := setList st.freelists index rest })

/-- The outcome `xxfree` reports. -/
inductive FreeResult where
  | isNull : FreeResult
  | invalidPtr : FreeResult
  | ok : FreeResult
deriving DecidableEq

/-- `xxfree` from the source: no-op on NULL; look the pointer's class up
through `xxmalloc_usable_size`; on the `(size_t)(-1)` sentinel report an
invalid free (`perror`) and return with nothing modified; otherwise push
the exact pointer onto the list for the recorded class.  The push inherits
`addFirst`'s elision: the program's accepted free also performs the 8-byte
link store at the raw pointer, which can overwrite header bytes the
`pages` field of this model treats as immutable — see `xxfreeStoreAddr`
and the C8 analysis for that store's footprint. -/
def xxfree (st : AllocState) (ptr : Nat) : AllocState × FreeResult :=
  if ptr = 0 then (st, .isNull)
  else
    let size := xxmalloc_usable_size st ptr
    if size = USABLE_INVALID then (st, .invalidPtr)
    else
      let index := roundPowersList size
      ({ st with
          freelists := setList st.freelists index (addFirst (st.freelists index) ptr) },
        .ok)

/-- `xxmalloc` with the mapping granted, projected to its result; with
`mmapOk = true` the run never terminates the process
(`xxmalloc_true_isOk`), so the `.error` fallback below is dead. -/
def xxmallocOk (st : AllocState) (size : Nat) : Nat × AllocState :=
  match xxmalloc true st size with
  | .ok r => r
  | .error _ => (0, st)

end StateMachine

section SizeClassFacts

/-- Every size class maps back to its own width through the free-list
index: `16 * 2 ^ roundPowersList c = c` for `c` in the class set. -/
theorem class_index_width : ∀ c ∈ classList, 16 * 2 ^ roundPowersList c = c := by
  decide

/-- Classifying a small/medium request lands in the class set. -/
theorem roundPowers_mem_classList (n : Nat) (h : n ≤ 2048) :
    (roundPowers (n : Int)).toNat ∈ classList := by
  unfold roundPowers classList
  have hn : (n : Int) ≤ 2048 := by exact_mod_cast h
  split_ifs <;> simp_all

end SizeClassFacts

/-- `roundPowers` computes exactly the spec's `classify`: the smallest
class ≥ the request, and `-1` (Oversized) above 2048. -/
theorem roundPowers_eq_specClassify (n : Int) : roundPowers n = specClassify n := by
  unfold roundPowers specClassify classList
  by_cases h1 : n ≤ 16
  · simp [h1, show ¬ (2048 < n) by omega]
  · by_cases h2 : n ≤ 32
    · simp [h1, h2, show ¬ (2048 < n) by omega]
    · by_cases h3 : n ≤ 64
      · simp [h1, h2, h3, show ¬ (2048 < n) by omega]
      · by_cases h4 : n ≤ 128
        · simp [h1, h2, h3, h4, show ¬ (2048 < n) by omega]
        · by_cases h5 : n ≤ 256
          · simp [h1, h2, h3, h4, h5, show ¬ (2048 < n) by omega]
          · by_cases h6 : n ≤ 512
            · simp [h1, h2, h3, h4, h5, h6, show ¬ (2048 < n) by omega]
            · by_cases h7 : n ≤ 1024
              · simp [h1, h2, h3, h4, h5, h6, h7, show ¬ (2048 < n) by omega]
              · by_cases h8 : n ≤ 2048
                · simp [h1, h2, h3, h4, h5, h6, h7, h8, show ¬ (2048 < n) by omega]
                · simp [h1, h2, h3, h4, h5, h6, h7, h8, show 2048 < n by omega]

set_option maxHeartbeats 2000000 in
/-- **C5.** `classify` (= `roundPowers`) rounds every requested byte count
up to the smallest member of {16,…,2048} that is ≥ the request (it agrees
with the spec-modelled `specClassify` everywhere, and is minimal among the
classes ≥ the request), returns Oversized (−1) exactly when the request
exceeds 2048, and maps 0 and every negative (underflowed) request to the
smallest class 16 rather than erroring. -/
theorem C5_classify_rounds_up (n : Int) :
    roundPowers n = specClassify n ∧
    (roundPowers n = -1 ↔ 2048 < n) ∧
    (n ≤ 0 → roundPowers n = 16) ∧
    (∀ c ∈ classList, n ≤ (c : Int) → roundPowers n ≤ (c : Int)) := by
  refine ⟨roundPowers_eq_specClassify n, ?_, ?_, ?_⟩
  · unfold roundPowers
    split_ifs <;> norm_num <;> omega
  · intro hn
    unfold roundPowers
    split_ifs <;> omega
  · intro c hc hn
    simp [classList] at hc
    rcases hc with rfl | rfl | rfl | rfl | rfl | rfl | rfl | rfl <;>
      · unfold roundPowers
        split_ifs <;> omega

/-- Witness for C5 at concrete inputs: a zero/negative request classifies
to 16, a request of 100 to 128. -/
theorem C5_witness :
    roundPowers (-7) = 16 ∧ roundPowers 0 = 16 ∧ roundPowers 100 = specClassify 100 :=
  ⟨(C5_classify_rounds_up (-7)).2.2.1 (by decide),
   (C5_classify_rounds_up 0).2.2.1 (by decide),
   (C5_classify_rounds_up 100).1⟩

/-- **C6.** `usableSize(NULL) = 0`; for every non-null pointer whose
enclosing page's header tag does not match the sentinel, `usableSize`
returns the single sentinel value `(size_t)(-1)`, which differs from 0 and
from every valid size-class width; and for every non-null pointer whose
tag matches, it returns the header's recorded block size verbatim. -/
theorem C6_usable_size_contract (st : AllocState) (p bs : Nat) :
    xxmalloc_usable_size st 0 = 0 ∧
    USABLE_INVALID ≠ 0 ∧
    (∀ c ∈ classList, USABLE_INVALID ≠ c) ∧
    (p ≠ 0 → headerLookup st (pageStart p) = none →
      xxmalloc_usable_size st p = USABLE_INVALID) ∧
    (p ≠ 0 → headerLookup st (pageStart p) = some bs →
      xxmalloc_usable_size st p = bs) := by
  refine ⟨by simp [xxmalloc_usable_size], by decide, by decide, ?_, ?_⟩
  · intro hp hh
    simp [xxmalloc_usable_size, hp, hh]
  · intro hp hh
    simp [xxmalloc_usable_size, hp, hh]

/-- Witness for C6: after one allocation of 100 bytes (class 128, page
carved at 4096), a pointer into the unmapped page at 8192 reports the
invalid sentinel, and a pointer into the carved page reports 128. -/
theorem C6_witness :
    xxmalloc_usable_size (xxmallocOk initState 100).2 9000 = USABLE_INVALID ∧
    xxmalloc_usable_size (xxmallocOk initState 100).2 5000 = 128 :=
  ⟨(C6_usable_size_contract (xxmallocOk initState 100).2 9000 0).2.2.2.1
      (by decide) (by decide),
   (C6_usable_size_contract (xxmallocOk initState 100).2 5000 128).2.2.2.2
      (by decide) (by decide)⟩

section CarveProofs

/-- Each class divides the page and fits between 16 and 2048 bytes. -/
theorem classList_facts : ∀ s ∈ classList, 16 ≤ s ∧ s ≤ 2048 ∧ s ∣ PAGE_SIZE := by
  decide

/-- The carve loop exits with `offset = PAGE_SIZE` whenever it starts at an
offset that is at most `PAGE_SIZE` away by a multiple of `size` and has
enough fuel. -/
theorem carveLoop_offset (base s : Nat) :
    ∀ fuel offset m, offset ≤ PAGE_SIZE → s ∣ (PAGE_SIZE - offset) →
      PAGE_SIZE ≤ offset + fuel * s →
      (carveLoop fuel base s offset m).2 = PAGE_SIZE := by
  intro fuel
  induction fuel with
  | zero =>
    intro offset m h1 h2 h3
    simp only [carveLoop]
    omega
  | succ fuel ih =>
    intro offset m h1 h2 h3
    by_cases h : offset < PAGE_SIZE
    · simp only [carveLoop, if_pos h]
      have hs : s ≤ PAGE_SIZE - offset := Nat.le_of_dvd (by omega) h2
      have hstep : (fuel + 1) * s = fuel * s + s := by ring
      refine ih (offset + s) _ (by omega) ?_ (by omega)
      have := Nat.dvd_sub' h2 (dvd_refl s)
      simpa [Nat.sub_sub] using this
    · simp only [carveLoop, if_neg h]
      omega

/-- Addresses below the current write position are never touched by the
remaining iterations of the carve loop. -/
theorem carveLoop_read_lt (base s : Nat) :
    ∀ fuel offset m x, x < base + offset →
      (carveLoop fuel base s offset m).1 x = m x := by
  intro fuel
  induction fuel with
  | zero => intro offset m x _; simp [carveLoop]
  | succ fuel ih =>
    intro offset m x hx
    by_cases h : offset < PAGE_SIZE
    · simp only [carveLoop, if_pos h]
      rw [ih (offset + s) _ x (by omega)]
      simp [writeMem, show x ≠ base + offset by omega]
    · simp [carveLoop, if_neg h]

/-- Addresses that are not of the form `base + offset + j·size` are left
unchanged by the carve loop. -/
theorem carveLoop_read_miss (base s : Nat) :
    ∀ fuel offset m x, (∀ j, x ≠ base + offset + j * s) →
      (carveLoop fuel base s offset m).1 x = m x := by
  intro fuel
  induction fuel with
  | zero => intro offset m x _; simp [carveLoop]
  | succ fuel ih =>
    intro offset m x hx
    by_cases h : offset < PAGE_SIZE
    · simp only [carveLoop, if_pos h]
      rw [ih (offset + s) _ x ?_]
      · have h0 := hx 0
        simp only [Nat.zero_mul, Nat.add_zero] at h0
        simp only [writeMem, if_neg h0]
      · intro j heq
        apply hx (j + 1)
        rw [heq]; ring
    · simp [carveLoop, if_neg h]

/-- Each in-page write of the carve loop is visible in the final memory:
the word at `base + offset + j·size` holds the address `size` further on. -/
theorem carveLoop_read_hit (base s : Nat) (hs : 0 < s) :
    ∀ fuel offset m j, PAGE_SIZE ≤ offset + fuel * s →
      offset + j * s < PAGE_SIZE →
      (carveLoop fuel base s offset m).1 (base + offset + j * s)
        = some (base + offset + j * s + s) := by
  intro fuel
  induction fuel with
  | zero =>
    intro offset m j h1 h2
    have : 0 ≤ j * s := Nat.zero_le _
    omega
  | succ fuel ih =>
    intro offset m j h1 h2
    have h : offset < PAGE_SIZE := by
      have : 0 ≤ j * s := Nat.zero_le _
      omega
    simp only [carveLoop, if_pos h]
    cases j with
    | zero =>
      simp only [Nat.zero_mul, Nat.add_zero]
      rw [carveLoop_read_lt base s fuel (offset + s) _ (base + offset) (by omega)]
      simp [writeMem]
    | succ j' =>
      have hstep : (fuel + 1) * s = fuel * s + s := by ring
      have e1 : base + offset + (j' + 1) * s = base + (offset + s) + j' * s := by ring
      have e2 : offset + (j' + 1) * s = offset + s + j' * s := by ring
      rw [e1]
      rw [ih (offset + s) _ j' (by omega) (by omega)]

end CarveProofs

section CarveBlocks

/-- Unfold the lets of `allocate_blocks`. -/
theorem allocate_blocks_eq (base s : Nat) :
    allocate_blocks base s =
      (writeMem
        (carveLoop PAGE_SIZE base s s
          (writeMem (writeMem (fun _ => none) base MAGIC_NUMBER) (base + 8) s)).1
        (base +
          (carveLoop PAGE_SIZE base s s
            (writeMem (writeMem (fun _ => none) base MAGIC_NUMBER) (base + 8) s)).2 - s)
        0,
       base + s) := rfl

/-- `PAGE_SIZE` fuel is always enough for the carve loop. -/
theorem carve_fuel (s : Nat) (h16 : 16 ≤ s) : PAGE_SIZE ≤ s + PAGE_SIZE * s := by
  have h1 : PAGE_SIZE * 1 ≤ PAGE_SIZE * s := Nat.mul_le_mul_left _ (by omega)
  omega

/-- The carve loop of `allocate_blocks` stops exactly at `PAGE_SIZE`. -/
theorem allocate_blocks_offset (base s : Nat) (h16 : 16 ≤ s) (h2048 : s ≤ 2048)
    (hdvd : s ∣ PAGE_SIZE) :
    (carveLoop PAGE_SIZE base s s
      (writeMem (writeMem (fun _ => none) base MAGIC_NUMBER) (base + 8) s)).2
      = PAGE_SIZE := by
  have hPS : PAGE_SIZE = 4096 := rfl
  exact carveLoop_offset base s PAGE_SIZE s _ (by omega)
    (Nat.dvd_sub' hdvd (dvd_refl s)) (carve_fuel s h16)

/-- The header words survive the carve: after `allocate_blocks`, offset 0
of the page holds the magic number and offset 8 holds the block size. -/
theorem allocate_blocks_header (base s : Nat) (h16 : 16 ≤ s) (h2048 : s ≤ 2048)
    (hdvd : s ∣ PAGE_SIZE) :
    (allocate_blocks base s).1 base = some MAGIC_NUMBER ∧
    (allocate_blocks base s).1 (base + 8) = some s := by
  have hPS : PAGE_SIZE = 4096 := rfl
  rw [allocate_blocks_eq]
  rw [allocate_blocks_offset base s h16 h2048 hdvd]
  constructor
  · simp only [writeMem, if_neg (show base ≠ base + PAGE_SIZE - s by omega)]
    rw [carveLoop_read_miss base s PAGE_SIZE s _ base ?_]
    · simp [writeMem, show base ≠ base + 8 by omega]
    · intro j
      have : 0 ≤ j * s := Nat.zero_le _
      omega
  · simp only [writeMem, if_neg (show base + 8 ≠ base + PAGE_SIZE - s by omega)]
    rw [carveLoop_read_miss base s PAGE_SIZE s _ (base + 8) ?_]
    · simp [writeMem]
    · intro j
      have : 0 ≤ j * s := Nat.zero_le _
      omega

/-- The product identities tying `PAGE_SIZE / s` to `PAGE_SIZE`. -/
theorem class_mul_facts (s : Nat) (h16 : 16 ≤ s) (h2048 : s ≤ 2048)
    (hdvd : s ∣ PAGE_SIZE) :
    (PAGE_SIZE / s) * s = PAGE_SIZE ∧
    (PAGE_SIZE / s - 1) * s = PAGE_SIZE - s ∧
    2 ≤ PAGE_SIZE / s := by
  have hPS : PAGE_SIZE = 4096 := rfl
  have hmul : (PAGE_SIZE / s) * s = PAGE_SIZE := Nat.div_mul_cancel hdvd
  have hsub : (PAGE_SIZE / s - 1) * s = PAGE_SIZE - s := by
    rw [Nat.sub_mul, hmul, one_mul]
  refine ⟨hmul, hsub, ?_⟩
  rcases hq : PAGE_SIZE / s with _ | _ | q
  · rw [hq] at hmul
    simp at hmul
    omega
  · rw [hq] at hmul
    simp at hmul
    omega
  · omega

/-- After `allocate_blocks`, each block except the last links to the block
`size` bytes further on. -/
theorem allocate_blocks_link (base s : Nat) (h16 : 16 ≤ s) (h2048 : s ≤ 2048)
    (hdvd : s ∣ PAGE_SIZE) (k : Nat) (hk1 : 1 ≤ k) (hkm : k < PAGE_SIZE / s - 1) :
    (allocate_blocks base s).1 (base + k * s) = some (base + (k + 1) * s) := by
  have hPS : PAGE_SIZE = 4096 := rfl
  obtain ⟨hmul, hsub, hq2⟩ := class_mul_facts s h16 h2048 hdvd
  have hks : k * s < (PAGE_SIZE / s - 1) * s :=
    (Nat.mul_lt_mul_right (show 0 < s by omega)).mpr hkm
  have hlt : k * s < PAGE_SIZE - s := hsub ▸ hks
  rw [allocate_blocks_eq]
  rw [allocate_blocks_offset base s h16 h2048 hdvd]
  simp only [writeMem, if_neg (show base + k * s ≠ base + PAGE_SIZE - s by omega)]
  obtain ⟨k', rfl⟩ : ∃ k', k = k' + 1 := ⟨k - 1, by omega⟩
  have e1 : base + (k' + 1) * s = base + s + k' * s := by ring
  rw [e1]
  rw [carveLoop_read_hit base s (by omega) PAGE_SIZE s _ k' (carve_fuel s h16) ?_]
  · congr 1
    ring
  · have e2 : s + k' * s = (k' + 1) * s := by ring
    omega

/-- After `allocate_blocks`, the last block's link is null. -/
theorem allocate_blocks_last (base s : Nat) (h16 : 16 ≤ s) (h2048 : s ≤ 2048)
    (hdvd : s ∣ PAGE_SIZE) :
    (allocate_blocks base s).1 (base + (PAGE_SIZE / s - 1) * s) = some 0 := by
  have hPS : PAGE_SIZE = 4096 := rfl
  obtain ⟨hmul, hsub, hq2⟩ := class_mul_facts s h16 h2048 hdvd
  rw [allocate_blocks_eq]
  rw [allocate_blocks_offset base s h16 h2048 hdvd]
  simp only [writeMem,
    if_pos (show base + (PAGE_SIZE / s - 1) * s = base + PAGE_SIZE - s by omega)]

/-- Following links from the null pointer gives the empty chain. -/
theorem readChain_nil (m : Mem) (fuel : Nat) : readChain m fuel 0 = [] := by
  cases fuel <;> simp [readChain]

/-- Following the links from block `k` of a carved page enumerates blocks
`k, k+1, …, PAGE_SIZE/s − 1` in increasing address order. -/
theorem allocate_blocks_chainFrom (base s : Nat) (h16 : 16 ≤ s) (h2048 : s ≤ 2048)
    (hdvd : s ∣ PAGE_SIZE) :
    ∀ fuel k, 1 ≤ k → k ≤ PAGE_SIZE / s - 1 → PAGE_SIZE / s - 1 - k < fuel →
      readChain (allocate_blocks base s).1 fuel (base + k * s)
        = (List.range (PAGE_SIZE / s - 1 - k + 1)).map (fun i => base + (k + i) * s) := by
  obtain ⟨hmul, hsub, hq2⟩ := class_mul_facts s h16 h2048 hdvd
  intro fuel
  induction fuel with
  | zero => intro k hk1 hkm hf; omega
  | succ fuel ih =>
    intro k hk1 hkm hf
    have hks : s ≤ k * s := Nat.le_mul_of_pos_left s (by omega)
    have hp0 : ¬ (base + k * s = 0) := by omega
    rw [readChain, if_neg hp0]
    by_cases hk : k = PAGE_SIZE / s - 1
    · subst hk
      rw [allocate_blocks_last base s h16 h2048 hdvd]
      simp only [Option.getD_some, readChain_nil]
      rw [show PAGE_SIZE / s - 1 - (PAGE_SIZE / s - 1) + 1 = 1 by omega]
      simp [List.range_succ]
    · have hklt : k < PAGE_SIZE / s - 1 := by omega
      rw [allocate_blocks_link base s h16 h2048 hdvd k hk1 hklt]
      simp only [Option.getD_some]
      rw [ih (k + 1) (by omega) (by omega) (by omega)]
      have hrange : PAGE_SIZE / s - 1 - k + 1 = (PAGE_SIZE / s - 1 - (k + 1) + 1) + 1 := by
        omega
      rw [hrange]
      conv_rhs => rw [List.range_succ_eq_map]
      simp only [List.map_cons, List.map_map]
      congr 1
      apply List.map_congr_left
      intro a _
      simp only [Function.comp_apply]
      rw [show k + 1 + a = k + (a + 1) by omega]

/-- The chain that `allocate_blocks` returns reads back as exactly
`blockList base s`: the blocks at offsets `s, 2s, …, PAGE_SIZE − s`, in
increasing address order. -/
theorem allocate_blocks_chain_eq (base s : Nat) (h16 : 16 ≤ s) (h2048 : s ≤ 2048)
    (hdvd : s ∣ PAGE_SIZE) :
    readChain (allocate_blocks base s).1 PAGE_SIZE ((allocate_blocks base s).2)
      = blockList base s := by
  obtain ⟨hmul, hsub, hq2⟩ := class_mul_facts s h16 h2048 hdvd
  have h2 : (allocate_blocks base s).2 = base + 1 * s := by
    rw [allocate_blocks_eq]
    simp
  rw [h2]
  have hDLE : PAGE_SIZE / s ≤ PAGE_SIZE := Nat.div_le_self _ _
  have hPS : PAGE_SIZE = 4096 := rfl
  rw [allocate_blocks_chainFrom base s h16 h2048 hdvd PAGE_SIZE 1 (by omega) (by omega)
    (by omega)]
  unfold blockList
  have hrange : PAGE_SIZE / s - 1 - 1 + 1 = PAGE_SIZE / s - 1 := by omega
  rw [hrange]
  apply List.map_congr_left
  intro a _
  ring_nf

end CarveBlocks

/-- **C2.** Given a size class `s`, `allocate_blocks` writes a header
(sentinel tag `MAGIC_NUMBER`, block size `s`) at offset 0 of the freshly
mapped page, links the block at each offset to the block `s` bytes
further, sets the final block's link to null, and returns the block at
offset `s` (just after the header); reading the returned chain back from
memory yields exactly the blocks at offsets `s, 2s, …, PAGE_SIZE − s`, in
increasing address order (`blockList`). -/
theorem C2_carve_page (base s : Nat) (hs : s ∈ classList) :
    (allocate_blocks base s).1 base = some MAGIC_NUMBER ∧
    (allocate_blocks base s).1 (base + 8) = some s ∧
    (allocate_blocks base s).2 = base + s ∧
    (∀ k, 1 ≤ k → k < PAGE_SIZE / s - 1 →
      (allocate_blocks base s).1 (base + k * s) = some (base + (k + 1) * s)) ∧
    (allocate_blocks base s).1 (base + (PAGE_SIZE / s - 1) * s) = some 0 ∧
    readChain (allocate_blocks base s).1 PAGE_SIZE ((allocate_blocks base s).2)
      = blockList base s := by
  obtain ⟨h16, h2048, hdvd⟩ := classList_facts s hs
  exact ⟨(allocate_blocks_header base s h16 h2048 hdvd).1,
    (allocate_blocks_header base s h16 h2048 hdvd).2,
    rfl,
    fun k hk1 hkm => allocate_blocks_link base s h16 h2048 hdvd k hk1 hkm,
    allocate_blocks_last base s h16 h2048 hdvd,
    allocate_blocks_chain_eq base s h16 h2048 hdvd⟩

/-- Witness for C2: the class-2048 carve of the page at 4096 — header
written, single block at offset 2048 returned, its link null. -/
theorem C2_witness :
    (allocate_blocks 4096 2048).1 4096 = some MAGIC_NUMBER ∧
    (allocate_blocks 4096 2048).1 (4096 + 8) = some 2048 ∧
    (allocate_blocks 4096 2048).2 = 4096 + 2048 ∧
    (allocate_blocks 4096 2048).1 (4096 + (PAGE_SIZE / 2048 - 1) * 2048) = some 0 ∧
    readChain (allocate_blocks 4096 2048).1 PAGE_SIZE ((allocate_blocks 4096 2048).2)
      = blockList 4096 2048 := by
  have h := C2_carve_page 4096 2048 (by decide)
  exact ⟨h.1, h.2.1, h.2.2.1, h.2.2.2.2.1, h.2.2.2.2.2⟩

section StateLemmas

/-- Rounding an in-page offset down lands on the page base. -/
theorem pageStart_add (b off : Nat) (hb : b % PAGE_SIZE = 0) (hoff : off < PAGE_SIZE) :
    pageStart (b + off) = b := by
  unfold pageStart
  obtain ⟨t, rfl⟩ : ∃ t, b = PAGE_SIZE * t := ⟨b / PAGE_SIZE, by
    have := Nat.div_add_mod b PAGE_SIZE
    omega⟩
  rw [Nat.mul_add_mod]
  rw [Nat.mod_eq_of_lt hoff]
  omega

/-- `headerLookup` only reads the `pages` field. -/
theorem headerLookup_pages_eq (st' st : AllocState) (h : st'.pages = st.pages) (b : Nat) :
    headerLookup st' b = headerLookup st b := by
  simp [headerLookup, h]

/-- A successful header read means the page is recorded with that size. -/
theorem headerLookup_some_mem (st : AllocState) (b v : Nat)
    (h : headerLookup st b = some v) : (b, v) ∈ st.pages := by
  unfold headerLookup at h
  obtain ⟨pr, hfind, hv⟩ := Option.map_eq_some'.mp h
  have hmem := List.mem_of_find?_eq_some hfind
  have hpred := List.find?_some hfind
  have hb : pr.1 = b := by simpa using hpred
  have : pr = (b, v) := by
    cases pr
    simp_all
  rw [← this]
  exact hmem

/-- Header reads after consing one fresh page onto `pages`. -/
theorem headerLookup_cons (st' st : AllocState) (e : Nat × Nat)
    (h : st'.pages = e :: st.pages) (b : Nat) :
    headerLookup st' b = if e.1 = b then some e.2 else headerLookup st b := by
  by_cases hb : e.1 = b <;> simp [headerLookup, h, List.find?_cons, hb]

/-- Membership in a carved page's block list. -/
theorem blockList_mem (base s q : Nat) (hq : q ∈ blockList base s) :
    ∃ j, j < PAGE_SIZE / s - 1 ∧ q = base + (j + 1) * s := by
  unfold blockList at hq
  obtain ⟨j, hj, rfl⟩ := List.mem_map.mp hq
  exact ⟨j, List.mem_range.mp hj, rfl⟩

/-- `ROUND_UP` rounds up to a multiple: the result is at least `x`, is
divisible by `y`, and exceeds `x` by less than `y`. -/
theorem ROUND_UP_facts (x y : Nat) (hy : 0 < y) :
    x ≤ ROUND_UP x y ∧ y ∣ ROUND_UP x y ∧ ROUND_UP x y < x + y := by
  have hdm := Nat.div_add_mod x y
  have hmod : x % y < y := Nat.mod_lt x hy
  unfold ROUND_UP
  split_ifs with h
  · exact ⟨le_refl x, Nat.dvd_of_mod_eq_zero h, by omega⟩
  · refine ⟨by omega, ⟨x / y + 1, ?_⟩, by omega⟩
    have : y * (x / y + 1) = y * (x / y) + y := by ring
    omega

/-- A block offset of the fresh chain stays inside its page. -/
theorem blockList_offset_lt (s j : Nat) (h16 : 16 ≤ s) (h2048 : s ≤ 2048)
    (hdvd : s ∣ PAGE_SIZE) (hj : j < PAGE_SIZE / s - 1) :
    0 < (j + 1) * s ∧ (j + 1) * s < PAGE_SIZE := by
  obtain ⟨hmul, hsub, hq2⟩ := class_mul_facts s h16 h2048 hdvd
  have hle : (j + 1) * s ≤ (PAGE_SIZE / s - 1) * s :=
    Nat.mul_le_mul_right s (by omega)
  have hPS : PAGE_SIZE = 4096 := rfl
  constructor
  · have : 0 < (j + 1) := Nat.succ_pos j
    exact Nat.mul_pos this (by omega)
  · omega

end StateLemmas

section WellFormed

/-- The allocator invariant tying the free lists, the carved-page headers
and the mmap freshness counter together.  It holds in `initState` and is
preserved by every `xxmalloc` and `xxfree` call (`Reachable_WF`). -/
structure WF (st : AllocState) : Prop where
  pages_class : ∀ pr ∈ st.pages, pr.2 ∈ classList
  pages_align : ∀ pr ∈ st.pages, pr.1 % PAGE_SIZE = 0
  pages_bound : ∀ pr ∈ st.pages,
    0 < pr.1 ∧ pr.1 + PAGE_SIZE ≤ (st.nextPage + 1) * PAGE_SIZE
  free_mem : ∀ i, ∀ p ∈ st.freelists i,
    p ≠ 0 ∧ headerLookup st (pageStart p) = some (16 * 2 ^ i)
  over_bound : ∀ pr ∈ st.oversized,
    pr.1 % PAGE_SIZE = 0 ∧ 0 < pr.1 ∧ pr.1 + pr.2 ≤ (st.nextPage + 1) * PAGE_SIZE
  over_disj : ∀ pr ∈ st.oversized, ∀ q ∈ st.pages,
    q.1 + PAGE_SIZE ≤ pr.1 ∨ pr.1 + pr.2 ≤ q.1
  pages_sorted : st.pages.Pairwise (fun a b => b.1 < a.1)

/-- The initial state is well formed. -/
theorem WF_initState : WF initState := by
  constructor <;> simp [initState]

end WellFormed

section MallocEquations

/-- Oversized path with the mapping granted: return the fresh region. -/
theorem xxmalloc_oversized_ok (st : AllocState) (size : Nat) (h : 2048 < size) :
    xxmalloc true st size =
      .ok ((st.nextPage + 1) * PAGE_SIZE,
        { st with
          oversized :=
            ((st.nextPage + 1) * PAGE_SIZE, ROUND_UP size PAGE_SIZE) :: st.oversized
          nextPage := st.nextPage + ROUND_UP size PAGE_SIZE / PAGE_SIZE }) := by
  simp [xxmalloc, h]

/-- Oversized path with the mapping refused: `log_message` + `exit(2)`. -/
theorem xxmalloc_oversized_fail (st : AllocState) (size : Nat) (h : 2048 < size) :
    xxmalloc false st size = .error (.viaSink "mmap failed! Giving up.\n") := by
  simp [xxmalloc, h]

/-- Small/medium path with a non-empty list: pop the head. -/
theorem xxmalloc_pop (mok : Bool) (st : AllocState) (size first : Nat) (rest : List Nat)
    (h : ¬ 2048 < size)
    (hl : st.freelists (roundPowersList (roundPowers (size : Int)).toNat) = first :: rest) :
    xxmalloc mok st size =
      .ok (first,
        { st with freelists :=
            setList st.freelists (roundPowersList (roundPowers (size : Int)).toNat) rest }) := by
  simp only [xxmalloc, if_neg h]
  rw [hl]

/-- Small/medium path with an empty list and the mapping granted: carve a
fresh page, install its chain, pop the head block. -/
theorem xxmalloc_carve (st : AllocState) (size : Nat) (h : ¬ 2048 < size)
    (hl : st.freelists (roundPowersList (roundPowers (size : Int)).toNat) = []) :
    xxmalloc true st size =
      .ok ((st.nextPage + 1) * PAGE_SIZE + (roundPowers (size : Int)).toNat,
        { st with
          freelists :=
            setList st.freelists (roundPowersList (roundPowers (size : Int)).toNat)
              (removeFirst
                (blockList ((st.nextPage + 1) * PAGE_SIZE) (roundPowers (size : Int)).toNat))
          pages :=
            ((st.nextPage + 1) * PAGE_SIZE, (roundPowers (size : Int)).toNat) :: st.pages
          nextPage := st.nextPage + 1 }) := by
  simp only [xxmalloc, if_neg h]
  rw [hl]
  simp

/-- Small/medium path with an empty list and the mapping refused:
`perror` + `exit(EXIT_FAILURE)`. -/
theorem xxmalloc_carve_fail (st : AllocState) (size : Nat) (h : ¬ 2048 < size)
    (hl : st.freelists (roundPowersList (roundPowers (size : Int)).toNat) = []) :
    xxmalloc false st size = .error (.viaPerror "failed to allocate space") := by
  simp only [xxmalloc, if_neg h]
  rw [hl]
  simp

end MallocEquations

section FreeEquations

/-- `free(NULL)` is a no-op. -/
theorem xxfree_null (st : AllocState) : xxfree st 0 = (st, .isNull) := by
  simp [xxfree]

/-- `free` on a tag mismatch reports the invalid free and changes nothing. -/
theorem xxfree_invalid (st : AllocState) (p : Nat) (hp : p ≠ 0)
    (hh : headerLookup st (pageStart p) = none) :
    xxfree st p = (st, .invalidPtr) := by
  simp [xxfree, xxmalloc_usable_size, hp, hh]

/-- `free` on a tag match pushes the exact pointer onto the list of the
class recorded in the header. -/
theorem xxfree_push (st : AllocState) (p bs : Nat) (hp : p ≠ 0)
    (hh : headerLookup st (pageStart p) = some bs) (hbs : bs ≠ USABLE_INVALID) :
    xxfree st p =
      ({ st with
          freelists :=
            setList st.freelists (roundPowersList bs)
              (addFirst (st.freelists (roundPowersList bs)) p) },
        FreeResult.ok) := by
  simp [xxfree, xxmalloc_usable_size, hp, hh, hbs]

/-- No size class collides with the invalid sentinel. -/
theorem class_ne_invalid : ∀ c ∈ classList, c ≠ USABLE_INVALID := by decide

end FreeEquations

section MallocOkEquations

/-- `xxmalloc` with the mapping granted on the oversized path. -/
theorem xxmallocOk_oversized (st : AllocState) (size : Nat) (h : 2048 < size) :
    xxmallocOk st size =
      ((st.nextPage + 1) * PAGE_SIZE,
        { st with
          oversized :=
            ((st.nextPage + 1) * PAGE_SIZE, ROUND_UP size PAGE_SIZE) :: st.oversized
          nextPage := st.nextPage + ROUND_UP size PAGE_SIZE / PAGE_SIZE }) := by
  rw [xxmallocOk, xxmalloc_oversized_ok st size h]

/-- `xxmalloc` with the mapping granted, popping a non-empty list. -/
theorem xxmallocOk_pop (st : AllocState) (size first : Nat) (rest : List Nat)
    (h : ¬ 2048 < size)
    (hl : st.freelists (roundPowersList (roundPowers (size : Int)).toNat) = first :: rest) :
    xxmallocOk st size =
      (first,
        { st with freelists :=
            setList st.freelists (roundPowersList (roundPowers (size : Int)).toNat) rest }) := by
  rw [xxmallocOk, xxmalloc_pop true st size first rest h hl]

/-- `xxmalloc` with the mapping granted, carving a fresh page. -/
theorem xxmallocOk_carve (st : AllocState) (size : Nat) (h : ¬ 2048 < size)
    (hl : st.freelists (roundPowersList (roundPowers (size : Int)).toNat) = []) :
    xxmallocOk st size =
      ((st.nextPage + 1) * PAGE_SIZE + (roundPowers (size : Int)).toNat,
        { st with
          freelists :=
            setList st.freelists (roundPowersList (roundPowers (size : Int)).toNat)
              (removeFirst
                (blockList ((st.nextPage + 1) * PAGE_SIZE) (roundPowers (size : Int)).toNat))
          pages :=
            ((st.nextPage + 1) * PAGE_SIZE, (roundPowers (size : Int)).toNat) :: st.pages
          nextPage := st.nextPage + 1 }) := by
  rw [xxmallocOk, xxmalloc_carve st size h hl]

end MallocOkEquations

section Preservation

/-- Every size class round-trips through its free-list index. -/
theorem class_roundtrip (bs : Nat) (h : bs ∈ classList) :
    16 * 2 ^ roundPowersList bs = bs :=
  class_index_width bs h

/-- `xxfree` preserves the allocator invariant, whatever pointer it is
given. -/
theorem WF_xxfree (st : AllocState) (p : Nat) (h : WF st) : WF (xxfree st p).1 := by
  by_cases hp : p = 0
  · subst hp
    rw [xxfree_null]
    exact h
  cases hh : headerLookup st (pageStart p) with
  | none =>
    rw [xxfree_invalid st p hp hh]
    exact h
  | some bs =>
    have hmem := headerLookup_some_mem st _ _ hh
    have hcls : bs ∈ classList := h.pages_class _ hmem
    have hbs : bs ≠ USABLE_INVALID := class_ne_invalid bs hcls
    rw [xxfree_push st p bs hp hh hbs]
    set st' : AllocState :=
      { st with
          freelists :=
            setList st.freelists (roundPowersList bs)
              (addFirst (st.freelists (roundPowersList bs)) p) } with hst'
    have hpages : st'.pages = st.pages := rfl
    have hHL : ∀ b, headerLookup st' b = headerLookup st b :=
      headerLookup_pages_eq st' st hpages
    constructor
    · intro pr hpr; exact h.pages_class pr hpr
    · intro pr hpr; exact h.pages_align pr hpr
    · intro pr hpr; exact h.pages_bound pr hpr
    · intro i q hq
      have hq' : q ∈ setList st.freelists (roundPowersList bs)
          (addFirst (st.freelists (roundPowersList bs)) p) i := hq
      unfold setList at hq'
      by_cases hi : i = roundPowersList bs
      · rw [if_pos hi] at hq'
        unfold addFirst at hq'
        rcases List.mem_cons.mp hq' with rfl | hq''
        · refine ⟨hp, ?_⟩
          rw [hHL, hi, class_roundtrip bs hcls]
          exact hh
        · obtain ⟨hq0, hqh⟩ := h.free_mem (roundPowersList bs) q hq''
          rw [hi, hHL]
          exact ⟨hq0, hqh⟩
      · rw [if_neg hi] at hq'
        obtain ⟨hq0, hqh⟩ := h.free_mem i q hq'
        rw [hHL]
        exact ⟨hq0, hqh⟩
    · intro pr hpr; exact h.over_bound pr hpr
    · intro pr hpr; exact h.over_disj pr hpr
    · exact h.pages_sorted

end Preservation

section PreservationMalloc

/-- Header reads after a carve step's record update. -/
theorem headerLookup_carve (st : AllocState) (fl : Nat → List Nat) (e : Nat × Nat)
    (np : Nat) (b : Nat) :
    headerLookup { st with freelists := fl, pages := e :: st.pages, nextPage := np } b
      = if e.1 = b then some e.2 else headerLookup st b := by
  by_cases hb : e.1 = b <;> simp [headerLookup, List.find?_cons, hb]

/-- `xxmalloc` (with the mapping granted) preserves the allocator
invariant. -/
theorem WF_xxmallocOk (st : AllocState) (size : Nat) (h : WF st) :
    WF (xxmallocOk st size).2 := by
  have hPpos : 0 < PAGE_SIZE := by decide
  by_cases hsz : 2048 < size
  · rw [xxmallocOk_oversized st size hsz]
    dsimp only
    obtain ⟨hle, hdvd, hlt⟩ := ROUND_UP_facts size PAGE_SIZE hPpos
    obtain ⟨c, hc⟩ := hdvd
    have hcdiv : ROUND_UP size PAGE_SIZE / PAGE_SIZE = c := by
      rw [hc]
      exact Nat.mul_div_cancel_left c hPpos
    have hc1 : 1 ≤ c := by
      rcases Nat.eq_zero_or_pos c with rfl | hpos
      · rw [Nat.mul_zero] at hc
        omega
      · exact hpos
    have hmono : (st.nextPage + 1) * PAGE_SIZE
        ≤ (st.nextPage + ROUND_UP size PAGE_SIZE / PAGE_SIZE + 1) * PAGE_SIZE :=
      Nat.mul_le_mul_right _ (by omega)
    constructor
    · intro pr hpr; exact h.pages_class pr hpr
    · intro pr hpr; exact h.pages_align pr hpr
    · intro pr hpr
      obtain ⟨h1, h2⟩ := h.pages_bound pr hpr
      dsimp only
      exact ⟨h1, by omega⟩
    · intro i q hq
      exact h.free_mem i q hq
    · intro pr hpr
      rcases List.mem_cons.mp hpr with rfl | hpr'
      · dsimp only
        refine ⟨Nat.mul_mod_left _ _, Nat.mul_pos (Nat.succ_pos _) hPpos, ?_⟩
        rw [hcdiv, hc]
        have he : (st.nextPage + 1) * PAGE_SIZE + PAGE_SIZE * c
            = (st.nextPage + c + 1) * PAGE_SIZE := by ring
        omega
      · obtain ⟨m1, m2, m3⟩ := h.over_bound pr hpr'
        dsimp only
        exact ⟨m1, m2, by omega⟩
    · intro pr hpr q hq
      rcases List.mem_cons.mp hpr with rfl | hpr'
      · left
        exact (h.pages_bound q hq).2
      · exact h.over_disj pr hpr' q hq
    · exact h.pages_sorted
  · cases hl : st.freelists (roundPowersList (roundPowers (size : Int)).toNat) with
    | cons first rest =>
      rw [xxmallocOk_pop st size first rest hsz hl]
      dsimp only
      constructor
      · intro pr hpr; exact h.pages_class pr hpr
      · intro pr hpr; exact h.pages_align pr hpr
      · intro pr hpr; exact h.pages_bound pr hpr
      · intro i q hq
        have hq' : q ∈ setList st.freelists
            (roundPowersList (roundPowers (size : Int)).toNat) rest i := hq
        unfold setList at hq'
        by_cases hi : i = roundPowersList (roundPowers (size : Int)).toNat
        · rw [if_pos hi] at hq'
          have hmem : q ∈ st.freelists i := by
            rw [hi, hl]
            exact List.mem_cons_of_mem _ hq'
          exact h.free_mem i q hmem
        · rw [if_neg hi] at hq'
          exact h.free_mem i q hq'
      · intro pr hpr; exact h.over_bound pr hpr
      · intro pr hpr q hq; exact h.over_disj pr hpr q hq
      · exact h.pages_sorted
    | nil =>
      rw [xxmallocOk_carve st size hsz hl]
      dsimp only
      have hcls : (roundPowers (size : Int)).toNat ∈ classList :=
        roundPowers_mem_classList size (by omega)
      obtain ⟨h16, h2048, hdvd⟩ := classList_facts _ hcls
      have hBmod : ((st.nextPage + 1) * PAGE_SIZE) % PAGE_SIZE = 0 :=
        Nat.mul_mod_left _ _
      have hB2 : (st.nextPage + 1 + 1) * PAGE_SIZE
          = (st.nextPage + 1) * PAGE_SIZE + PAGE_SIZE := by ring
      constructor
      · intro pr hpr
        rcases List.mem_cons.mp hpr with rfl | hpr'
        · exact hcls
        · exact h.pages_class pr hpr'
      · intro pr hpr
        rcases List.mem_cons.mp hpr with rfl | hpr'
        · exact hBmod
        · exact h.pages_align pr hpr'
      · intro pr hpr
        dsimp only
        rcases List.mem_cons.mp hpr with rfl | hpr'
        · exact ⟨Nat.mul_pos (Nat.succ_pos _) hPpos, by omega⟩
        · obtain ⟨m1, m2⟩ := h.pages_bound pr hpr'
          exact ⟨m1, by omega⟩
      · intro i q hq
        have hq' : q ∈ setList st.freelists
            (roundPowersList (roundPowers (size : Int)).toNat)
            (removeFirst (blockList ((st.nextPage + 1) * PAGE_SIZE)
              (roundPowers (size : Int)).toNat)) i := hq
        unfold setList at hq'
        by_cases hi : i = roundPowersList (roundPowers (size : Int)).toNat
        · rw [if_pos hi] at hq'
          have hqB : q ∈ blockList ((st.nextPage + 1) * PAGE_SIZE)
              (roundPowers (size : Int)).toNat := by
            unfold removeFirst at hq'
            exact List.mem_of_mem_tail hq'
          obtain ⟨j, hj, rfl⟩ := blockList_mem _ _ q hqB
          obtain ⟨hpos, hltP⟩ := blockList_offset_lt _ j h16 h2048 hdvd hj
          have hBpos : 0 < (st.nextPage + 1) * PAGE_SIZE :=
            Nat.mul_pos (Nat.succ_pos _) hPpos
          refine ⟨by omega, ?_⟩
          rw [pageStart_add _ _ hBmod hltP]
          rw [headerLookup_carve]
          rw [if_pos rfl]
          rw [hi, class_roundtrip _ hcls]
        · rw [if_neg hi] at hq'
          obtain ⟨hq0, hqh⟩ := h.free_mem i q hq'
          refine ⟨hq0, ?_⟩
          rw [headerLookup_carve]
          have hmemq := headerLookup_some_mem st _ _ hqh
          have hbnd := (h.pages_bound _ hmemq).2
          rw [if_neg (by omega)]
          exact hqh
      · intro pr hpr
        obtain ⟨m1, m2, m3⟩ := h.over_bound pr hpr
        dsimp only
        exact ⟨m1, m2, by omega⟩
      · intro pr hpr q hq
        rcases List.mem_cons.mp hq with rfl | hq'
        · right
          exact (h.over_bound pr hpr).2.2
        · exact h.over_disj pr hpr q hq'
      · dsimp only
        rw [List.pairwise_cons]
        refine ⟨?_, h.pages_sorted⟩
        intro q hq
        have hb := (h.pages_bound q hq).2
        have hPpos : 0 < PAGE_SIZE := by decide
        dsimp only
        omega

end PreservationMalloc

section ReachableStates

/-- States the allocator can actually be in: the initial state, and
anything produced from a reachable state by a successful `xxmalloc` or by
`xxfree` (with arbitrary arguments). -/
inductive Reachable : AllocState → Prop where
  | init : Reachable initState
  | malloc (st : AllocState) (size : Nat) :
      Reachable st → Reachable (xxmallocOk st size).2
  | free (st : AllocState) (p : Nat) :
      Reachable st → Reachable (xxfree st p).1

/-- Every reachable state is well formed, so the `WF` hypotheses of the
claims below cover every state the allocator can reach. -/
theorem Reachable_WF (st : AllocState) (h : Reachable st) : WF st := by
  induction h with
  | init => exact WF_initState
  | malloc st size _ ih => exact WF_xxmallocOk st size ih
  | free st p _ ih => exact WF_xxfree st p ih

end ReachableStates

section C1Claim

end C1Claim

section C7Claim

/-- Rounding down to a page boundary never goes below an aligned lower
bound. -/
theorem pageStart_ge (b p : Nat) (hb : b % PAGE_SIZE = 0) (hbp : b ≤ p) :
    b ≤ pageStart p := by
  have h1 : b / PAGE_SIZE ≤ p / PAGE_SIZE := Nat.div_le_div_right hbp
  have h2 := Nat.div_add_mod p PAGE_SIZE
  have h3 := Nat.div_add_mod b PAGE_SIZE
  have h4 : PAGE_SIZE * (b / PAGE_SIZE) ≤ PAGE_SIZE * (p / PAGE_SIZE) :=
    Nat.mul_le_mul_left _ h1
  unfold pageStart
  omega

/-- Rounding down never goes up. -/
theorem pageStart_le (p : Nat) : pageStart p ≤ p := by
  unfold pageStart
  omega

/-- **C7.** For every non-null pointer whose enclosing page's header tag
does not match the sentinel, `free` reports the invalid-free condition and
returns with the entire state — every free-list head and every page
header — unchanged (the total function `xxfree` never terminates the
process).  Every pointer into an oversized region satisfies that premise:
oversized regions carry no header, so their pages never read back the
sentinel tag. -/
theorem C7_invalid_free_rejected (st : AllocState) (p b len : Nat) (h : WF st) :
    (p ≠ 0 → headerLookup st (pageStart p) = none →
      xxfree st p = (st, FreeResult.invalidPtr)) ∧
    ((b, len) ∈ st.oversized → b ≤ p → p < b + len →
      headerLookup st (pageStart p) = none) := by
  constructor
  · intro hp hh
    exact xxfree_invalid st p hp hh
  · intro hmem hbp hplen
    obtain ⟨hmod, hbpos, hbound⟩ := h.over_bound _ hmem
    cases hcase : headerLookup st (pageStart p) with
    | none => rfl
    | some v =>
      exfalso
      have hpg := headerLookup_some_mem st _ _ hcase
      have hdisj := h.over_disj _ hmem _ hpg
      have hge : b ≤ pageStart p := pageStart_ge b p hmod hbp
      have hle : pageStart p ≤ p := pageStart_le p
      have hPpos : 0 < PAGE_SIZE := by decide
      dsimp only at hdisj
      omega

/-- Witness for C7: after an oversized allocation of 5000 bytes (region
[4096, 12288)), freeing the interior pointer 6000 is rejected with the
state unchanged. -/
theorem C7_witness :
    xxfree (xxmallocOk initState 5000).2 6000
      = ((xxmallocOk initState 5000).2, FreeResult.invalidPtr) :=
  (C7_invalid_free_rejected (xxmallocOk initState 5000).2 6000 4096 8192
      (WF_xxmallocOk initState 5000 WF_initState)).1
    (by decide)
    ((C7_invalid_free_rejected (xxmallocOk initState 5000).2 6000 4096 8192
        (WF_xxmallocOk initState 5000 WF_initState)).2
      (by decide) (by decide) (by decide))

end C7Claim

section C9Claim

/-- **C9 (amended).** On every operating-system mapping failure the
allocator emits a diagnostic and terminates the process (`Except.error`),
never returning the failure to the caller; the oversized path emits
through the Diagnostic Sink (`log_message`), while the small/medium
page-carve path emits through `perror` — so the Sink has exactly one call
site, not two; and with the mapping granted no diagnostic is ever emitted. -/
theorem C9_mapping_failure_fatal (st : AllocState) (n : Nat) :
    (2048 < n →
      xxmalloc false st n = Except.error (Diag.viaSink "mmap failed! Giving up.\n")) ∧
    (¬ 2048 < n → st.freelists (roundPowersList (roundPowers (n : Int)).toNat) = [] →
      xxmalloc false st n = Except.error (Diag.viaPerror "failed to allocate space")) ∧
    (∀ d, xxmalloc true st n ≠ Except.error d) ∧
    (∀ d, xxmalloc false st n = Except.error d →
      (2048 < n ∧ d = Diag.viaSink "mmap failed! Giving up.\n") ∨
      (¬ 2048 < n ∧ d = Diag.viaPerror "failed to allocate space")) := by
  refine ⟨?_, ?_, ?_, ?_⟩
  · intro hsz
    exact xxmalloc_oversized_fail st n hsz
  · intro hsz hl
    exact xxmalloc_carve_fail st n hsz hl
  · intro d hd
    by_cases hsz : 2048 < n
    · rw [xxmalloc_oversized_ok st n hsz] at hd
      exact Except.noConfusion hd
    · cases hl : st.freelists (roundPowersList (roundPowers (n : Int)).toNat) with
      | nil =>
        rw [xxmalloc_carve st n hsz hl] at hd
        exact Except.noConfusion hd
      | cons first rest =>
        rw [xxmalloc_pop true st n first rest hsz hl] at hd
        exact Except.noConfusion hd
  · intro d hd
    by_cases hsz : 2048 < n
    · left
      refine ⟨hsz, ?_⟩
      rw [xxmalloc_oversized_fail st n hsz] at hd
      exact (Except.error.inj hd).symm
    · right
      refine ⟨hsz, ?_⟩
      cases hl : st.freelists (roundPowersList (roundPowers (n : Int)).toNat) with
      | nil =>
        rw [xxmalloc_carve_fail st n hsz hl] at hd
        exact (Except.error.inj hd).symm
      | cons first rest =>
        rw [xxmalloc_pop false st n first rest hsz hl] at hd
        exact Except.noConfusion hd

/-- Witness for C9 (amended): a failing oversized mapping goes through the
Sink, a failing page carve goes through `perror`. -/
theorem C9_witness :
    xxmalloc false initState 5000
        = Except.error (Diag.viaSink "mmap failed! Giving up.\n") ∧
    xxmalloc false initState 16
        = Except.error (Diag.viaPerror "failed to allocate space") :=
  ⟨(C9_mapping_failure_fatal initState 5000).1 (by decide),
   (C9_mapping_failure_fatal initState 16).2.1 (by decide) (by rfl)⟩

/-- **C9 counterexample.** The claim as stated says the small/medium
page-carve mapping failure emits through the Diagnostic Sink
(`log_message`); in the code that failure path calls `perror`, not
`log_message`: at the concrete failing input the run terminates
(`isOk = false`) without the Sink ever being invoked. -/
theorem C9_counterexample :
    (xxmalloc false initState 16).isOk = false ∧
    emittedViaSink (xxmalloc false initState 16) = false := by
  constructor <;> rfl

end C9Claim

section C10Claim

/-- **C10.** `free(p)` threads the exact address `p` onto the free list of
the class recorded in the enclosing page's header — without rounding `p`
down to a block boundary — so for any non-null `p` inside a carved page
whose tag matches (block-aligned or not), the very next allocate of that
class returns exactly `p`. -/
theorem C10_free_exact_address (st : AllocState) (p c n' : Nat) (h : WF st)
    (hp : p ≠ 0) (hh : headerLookup st (pageStart p) = some c)
    (hn' : ¬ 2048 < n') (hc : (roundPowers (n' : Int)).toNat = c) :
    ((xxfree st p).1).freelists (roundPowersList c)
        = p :: st.freelists (roundPowersList c) ∧
    (xxmallocOk (xxfree st p).1 n').1 = p := by
  have hcls : c ∈ classList := h.pages_class _ (headerLookup_some_mem st _ _ hh)
  have hbs : c ≠ USABLE_INVALID := class_ne_invalid c hcls
  rw [xxfree_push st p c hp hh hbs]
  dsimp only
  have hlist : setList st.freelists (roundPowersList c)
      (addFirst (st.freelists (roundPowersList c)) p) (roundPowersList c)
      = p :: st.freelists (roundPowersList c) := by
    simp [setList, addFirst]
  refine ⟨hlist, ?_⟩
  rw [xxmallocOk_pop _ n' p (st.freelists (roundPowersList c)) hn' (by rw [hc]; exact hlist)]

/-- Witness for C10: after carving the class-2048 page at 4096 (block at
6144), freeing the unaligned interior pointer 6149 makes the very next
class-2048 allocation return exactly 6149. -/
theorem C10_witness :
    ((xxfree (xxmallocOk initState 2048).2 6149).1).freelists (roundPowersList 2048)
        = 6149 :: ((xxmallocOk initState 2048).2).freelists (roundPowersList 2048) ∧
    (xxmallocOk (xxfree (xxmallocOk initState 2048).2 6149).1 2048).1 = 6149 :=
  C10_free_exact_address (xxmallocOk initState 2048).2 6149 2048 2048
    (WF_xxmallocOk initState 2048 WF_initState)
    (by decide) (by decide) (by decide) (by decide)

end C10Claim

section OpMachinery

/-- One public call to the allocator: an `allocate(n)` (with the mapping
granted) or a `free(p)`. -/
inductive Op where
  | alloc : Nat → Op
  | free : Nat → Op

/-- Apply one call to the state. -/
def applyOp (st : AllocState) (op : Op) : AllocState :=
  match op with
  | .alloc n => (xxmallocOk st n).2
  | .free p => (xxfree st p).1

/-- Run a sequence of calls. -/
def runOps (st : AllocState) : List Op → AllocState
  | [] => st
  | op :: rest => runOps (applyOp st op) rest

/-- Does a call operate on free list `i`?  An allocate touches the list of
its request's class (oversized requests touch none); a free touches the
list of the class its pointer's header records (null and rejected frees
touch none). -/
def opTouches (st : AllocState) (op : Op) (i : Nat) : Bool :=
  match op with
  | .alloc n =>
    if 2048 < n then false
    else roundPowersList (roundPowers (n : Int)).toNat == i
  | .free p =>
    if p = 0 then false
    else
      let size := xxmalloc_usable_size st p
      if size = USABLE_INVALID then false
      else roundPowersList size == i

/-- A call sequence that never operates on free list `i`. -/
def avoids (i : Nat) : AllocState → List Op → Bool
  | _, [] => true
  | st, op :: rest => !(opTouches st op i) && avoids i (applyOp st op) rest

/-- `free` on a pointer whose header reads back the invalid sentinel is
also rejected (the `size == -1` check). -/
theorem xxfree_sentinel (st : AllocState) (p : Nat) (hp : p ≠ 0)
    (hh : headerLookup st (pageStart p) = some USABLE_INVALID) :
    xxfree st p = (st, FreeResult.invalidPtr) := by
  simp [xxfree, xxmalloc_usable_size, hp, hh]

/-- A call that does not operate on free list `i` leaves its head
untouched. -/
theorem applyOp_freelists (st : AllocState) (op : Op) (i : Nat)
    (h : opTouches st op i = false) :
    (applyOp st op).freelists i = st.freelists i := by
  cases op with
  | alloc n =>
    simp only [opTouches] at h
    by_cases hn : 2048 < n
    · rw [applyOp, xxmallocOk_oversized st n hn]
    · rw [if_neg hn] at h
      have hne : i ≠ roundPowersList (roundPowers (n : Int)).toNat := by
        intro hi
        rw [hi] at h
        simp at h
      cases hl : st.freelists (roundPowersList (roundPowers (n : Int)).toNat) with
      | nil =>
        rw [applyOp, xxmallocOk_carve st n hn hl]
        dsimp only
        simp [setList, hne]
      | cons first rest =>
        rw [applyOp, xxmallocOk_pop st n first rest hn hl]
        dsimp only
        simp [setList, hne]
  | free p =>
    simp only [opTouches] at h
    by_cases hp : p = 0
    · rw [applyOp, hp, xxfree_null]
    rw [if_neg hp] at h
    cases hh : headerLookup st (pageStart p) with
    | none =>
      rw [applyOp, xxfree_invalid st p hp hh]
    | some bs =>
      by_cases hbs : bs = USABLE_INVALID
      · subst hbs
        rw [applyOp, xxfree_sentinel st p hp hh]
      · simp only [xxmalloc_usable_size, if_neg hp, hh] at h
        rw [if_neg hbs] at h
        have hne : i ≠ roundPowersList bs := by
          intro hi
          rw [hi] at h
          simp at h
        rw [applyOp, xxfree_push st p bs hp hh hbs]
        dsimp only
        simp [setList, hne]

/-- A call sequence avoiding free list `i` leaves its head untouched. -/
theorem runOps_freelists (i : Nat) :
    ∀ (ops : List Op) (st : AllocState), avoids i st ops = true →
      (runOps st ops).freelists i = st.freelists i := by
  intro ops
  induction ops with
  | nil => intro st _; rfl
  | cons op rest ih =>
    intro st hav
    unfold avoids at hav
    rw [Bool.and_eq_true] at hav
    obtain ⟨h1, h2⟩ := hav
    rw [runOps, ih (applyOp st op) h2,
      applyOp_freelists st op i (by simpa using h1)]

end OpMachinery

section C4Claim

/-- **C4.** If `p` was obtained from `allocate(n)` with `n ≤ 2048` (so its
page header records the class of `n`) and `free(p)` is called, then — as
long as no intervening call allocates from or frees into that size class —
the very next allocate whose size classifies to the same class returns
exactly `p` (LIFO head reuse).  Intervening calls on other classes
(including oversized allocations, null frees and rejected frees) are
allowed. -/
theorem C4_lifo_reuse (st : AllocState) (p n n' : Nat) (ops : List Op)
    (hp : p ≠ 0) (hn : n ≤ 2048)
    (hh : headerLookup st (pageStart p) = some ((roundPowers (n : Int)).toNat))
    (hn' : n' ≤ 2048)
    (hsame : roundPowers (n' : Int) = roundPowers (n : Int))
    (hav : avoids (roundPowersList ((roundPowers (n : Int)).toNat))
      ((xxfree st p).1) ops = true) :
    (xxmallocOk (runOps ((xxfree st p).1) ops) n').1 = p := by
  have hcls : (roundPowers (n : Int)).toNat ∈ classList :=
    roundPowers_mem_classList n hn
  have hbs := class_ne_invalid _ hcls
  have hfl : ((xxfree st p).1).freelists
      (roundPowersList ((roundPowers (n : Int)).toNat))
      = p :: st.freelists (roundPowersList ((roundPowers (n : Int)).toNat)) := by
    rw [xxfree_push st p _ hp hh hbs]
    dsimp only
    simp [setList, addFirst]
  have hrun := runOps_freelists _ ops ((xxfree st p).1) hav
  rw [xxmallocOk_pop _ n' p
    (st.freelists (roundPowersList ((roundPowers (n : Int)).toNat)))
    (by omega) (by rw [hsame, hrun, hfl])]

/-- Witness for C4: free the block obtained by `allocate(16)`, run an
intervening class-128 allocation and a null free, then `allocate(10)`
(class 16 again) — it returns exactly the freed block 4112. -/
theorem C4_witness :
    (xxmallocOk
        (runOps ((xxfree (xxmallocOk initState 16).2 4112).1)
          [Op.alloc 100, Op.free 0])
        10).1 = 4112 :=
  C4_lifo_reuse (xxmallocOk initState 16).2 4112 16 10 [Op.alloc 100, Op.free 0]
    (by decide) (by decide) (by decide) (by decide) (by decide) (by decide)

end C4Claim

section AllocRuns

/-- Run a sequence of allocate calls (each with the mapping granted),
collecting the returned pointers in order. -/
def allocSeq (st : AllocState) : List Nat → List Nat × AllocState
  | [] => ([], st)
  | n :: rest =>
    let r := xxmallocOk st n
    let next := allocSeq r.2 rest
    (r.1 :: next.1, next.2)

/-- One page yields `PAGE_SIZE / s − 1` blocks for class `s` (the header
consumes the first `s` bytes). -/
theorem blockList_length (base s : Nat) :
    (blockList base s).length = PAGE_SIZE / s - 1 := by
  simp [blockList]

/-- The fresh chain is its head block (offset `s`) followed by its tail. -/
theorem blockList_eq_cons (base s : Nat) (h1 : 1 ≤ PAGE_SIZE / s - 1) :
    blockList base s = (base + s) :: removeFirst (blockList base s) := by
  obtain ⟨t, ht⟩ : ∃ t, PAGE_SIZE / s - 1 = t + 1 := ⟨PAGE_SIZE / s - 1 - 1, by omega⟩
  unfold blockList removeFirst
  rw [ht, List.range_succ_eq_map, List.map_cons]
  simp

/-- Blocks of one fresh chain are in strictly increasing order, `s` bytes
apart. -/
theorem blockList_pairwise (base s : Nat) (_hs : 0 < s) :
    (blockList base s).Pairwise (fun p q => p + s ≤ q) := by
  unfold blockList
  refine (List.pairwise_lt_range _).map _ ?_
  intro a b hab
  have h1 : (a + 2) * s ≤ (b + 1) * s := Nat.mul_le_mul_right s (by omega)
  have h2 : (a + 1) * s + s = (a + 2) * s := by ring
  omega

/-- Every block of a fresh chain lies inside its page, past the header. -/
theorem blockList_bounds (base s : Nat) (h16 : 16 ≤ s) (h2048 : s ≤ 2048)
    (hdvd : s ∣ PAGE_SIZE) :
    ∀ p ∈ blockList base s, base + s ≤ p ∧ p + s ≤ base + PAGE_SIZE := by
  obtain ⟨hmul, hsub, hq2⟩ := class_mul_facts s h16 h2048 hdvd
  intro p hp
  obtain ⟨j, hj, rfl⟩ := blockList_mem base s p hp
  have h1 : 1 * s ≤ (j + 1) * s := Nat.mul_le_mul_right s (by omega)
  have h2 : (j + 1) * s ≤ (PAGE_SIZE / s - 1) * s := Nat.mul_le_mul_right s (by omega)
  constructor
  · omega
  · omega

/-- Popping runs: while the requests stay within the installed list, the
allocator hands out its prefix in order and touches nothing else. -/
theorem allocSeq_pops (s : Nat) :
    ∀ (ns : List Nat) (st : AllocState),
      (∀ n ∈ ns, ¬ 2048 < n ∧ (roundPowers (n : Int)).toNat = s) →
      ns.length ≤ (st.freelists (roundPowersList s)).length →
      (allocSeq st ns).1 = (st.freelists (roundPowersList s)).take ns.length ∧
      (allocSeq st ns).2.freelists (roundPowersList s)
        = (st.freelists (roundPowersList s)).drop ns.length ∧
      (allocSeq st ns).2.pages = st.pages ∧
      (allocSeq st ns).2.nextPage = st.nextPage := by
  intro ns
  induction ns with
  | nil =>
    intro st _ _
    exact ⟨rfl, rfl, rfl, rfl⟩
  | cons n rest ih =>
    intro st hcl hlen
    obtain ⟨hn, hcn⟩ := hcl n (List.mem_cons_self n rest)
    cases hl : st.freelists (roundPowersList s) with
    | nil =>
      rw [hl] at hlen
      simp at hlen
    | cons a tl =>
      have hpop := xxmallocOk_pop st n a tl hn (by rw [hcn]; exact hl)
      have h1 : (xxmallocOk st n).1 = a := by rw [hpop]
      have h2 : (xxmallocOk st n).2.freelists (roundPowersList s) = tl := by
        rw [hpop]
        dsimp only
        rw [hcn]
        simp [setList]
      have h3 : (xxmallocOk st n).2.pages = st.pages := by rw [hpop]
      have h4 : (xxmallocOk st n).2.nextPage = st.nextPage := by rw [hpop]
      obtain ⟨ih1, ih2, ih3, ih4⟩ := ih (xxmallocOk st n).2
        (fun m hm => hcl m (List.mem_cons_of_mem n hm))
        (by rw [h2]; rw [hl] at hlen; simpa using hlen)
      simp only [allocSeq]
      refine ⟨?_, ?_, ih3.trans h3, ih4.trans h4⟩
      · dsimp only
        rw [List.length_cons, List.take_succ_cons, h1, ih1, h2]
      · dsimp only
        rw [ih2, h2, List.length_cons, List.drop_succ_cons]

/-- Splitting an allocation run. -/
theorem allocSeq_append (l1 l2 : List Nat) :
    ∀ st : AllocState,
      allocSeq st (l1 ++ l2)
        = ((allocSeq st l1).1 ++ (allocSeq (allocSeq st l1).2 l2).1,
           (allocSeq (allocSeq st l1).2 l2).2) := by
  induction l1 with
  | nil => intro st; rfl
  | cons n rest ih =>
    intro st
    simp only [List.cons_append, allocSeq, List.append_eq, ih]

end AllocRuns

section PageRun

/-- A run of at most one page's worth of same-class allocations from an
empty list: one carve event, and the pointers handed out are exactly the
prefix of the fresh page's chain, in order. -/
theorem allocSeq_page (s : Nat) (hs : s ∈ classList) (ns : List Nat) (st : AllocState)
    (hcl : ∀ n ∈ ns, ¬ 2048 < n ∧ (roundPowers (n : Int)).toNat = s)
    (hl : st.freelists (roundPowersList s) = [])
    (hk1 : 1 ≤ ns.length) (hkB : ns.length ≤ PAGE_SIZE / s - 1) :
    (allocSeq st ns).1
        = (blockList ((st.nextPage + 1) * PAGE_SIZE) s).take ns.length ∧
    (allocSeq st ns).2.freelists (roundPowersList s)
        = (blockList ((st.nextPage + 1) * PAGE_SIZE) s).drop ns.length ∧
    (allocSeq st ns).2.pages = ((st.nextPage + 1) * PAGE_SIZE, s) :: st.pages ∧
    (allocSeq st ns).2.nextPage = st.nextPage + 1 := by
  obtain ⟨h16, h2048, hdvd⟩ := classList_facts s hs
  obtain ⟨hmul, hsub, hq2⟩ := class_mul_facts s h16 h2048 hdvd
  have hB1 : 1 ≤ PAGE_SIZE / s - 1 := by omega
  cases ns with
  | nil => simp at hk1
  | cons n0 rest =>
    obtain ⟨hn0, hcn0⟩ := hcl n0 (List.mem_cons_self _ _)
    have hcarve := xxmallocOk_carve st n0 hn0 (by rw [hcn0]; exact hl)
    rw [hcn0] at hcarve
    have h1 : (xxmallocOk st n0).1 = (st.nextPage + 1) * PAGE_SIZE + s := by rw [hcarve]
    have h2 : (xxmallocOk st n0).2.freelists (roundPowersList s)
        = removeFirst (blockList ((st.nextPage + 1) * PAGE_SIZE) s) := by
      rw [hcarve]
      dsimp only
      simp [setList]
    have h3 : (xxmallocOk st n0).2.pages
        = ((st.nextPage + 1) * PAGE_SIZE, s) :: st.pages := by
      rw [hcarve]
    have h4 : (xxmallocOk st n0).2.nextPage = st.nextPage + 1 := by rw [hcarve]
    have hlen : rest.length
        ≤ (removeFirst (blockList ((st.nextPage + 1) * PAGE_SIZE) s)).length := by
      have hbl := blockList_length ((st.nextPage + 1) * PAGE_SIZE) s
      unfold removeFirst
      rw [List.length_tail, hbl]
      rw [List.length_cons] at hkB
      omega
    obtain ⟨p1, p2, p3, p4⟩ := allocSeq_pops s rest (xxmallocOk st n0).2
      (fun m hm => hcl m (List.mem_cons_of_mem _ hm)) (by rw [h2]; exact hlen)
    simp only [allocSeq]
    refine ⟨?_, ?_, p3.trans h3, p4.trans h4⟩
    · dsimp only
      rw [h1, p1, h2]
      conv_rhs => rw [blockList_eq_cons _ s hB1]
      rw [List.length_cons, List.take_succ_cons]
    · rw [p2, h2]
      conv_rhs => rw [blockList_eq_cons _ s hB1]
      rw [List.length_cons, List.drop_succ_cons]

end PageRun

section MainRun

/-- Core of C3: a run of `k ≥ 1` same-class allocations from an empty
list carves exactly `⌈k / blocksPerPage⌉` pages, and the pointers handed
out are pairwise non-overlapping (each lies past its page's header and
below the next fresh page). -/
theorem allocSeq_main (s : Nat) (hs : s ∈ classList) :
    ∀ (k : Nat) (ns : List Nat) (st : AllocState),
      ns.length = k → 1 ≤ k →
      (∀ n ∈ ns, ¬ 2048 < n ∧ (roundPowers (n : Int)).toNat = s) →
      st.freelists (roundPowersList s) = [] →
      (allocSeq st ns).2.pages.length
          = st.pages.length + (k + (PAGE_SIZE / s - 1) - 1) / (PAGE_SIZE / s - 1) ∧
      (allocSeq st ns).1.Pairwise (fun p q => p + s ≤ q ∨ q + s ≤ p) ∧
      (∀ p ∈ (allocSeq st ns).1,
        (st.nextPage + 1) * PAGE_SIZE ≤ p ∧
        p + s ≤ ((allocSeq st ns).2.nextPage + 1) * PAGE_SIZE) ∧
      st.nextPage < (allocSeq st ns).2.nextPage := by
  obtain ⟨h16, h2048, hdvd⟩ := classList_facts s hs
  obtain ⟨hmul, hsub, hq2⟩ := class_mul_facts s h16 h2048 hdvd
  have hB1 : 1 ≤ PAGE_SIZE / s - 1 := by omega
  have hPpos : 0 < PAGE_SIZE := by decide
  intro k
  induction k using Nat.strong_induction_on with
  | _ k ih =>
    intro ns st hlen hk1 hcl hl
    by_cases hkB : k ≤ PAGE_SIZE / s - 1
    · obtain ⟨p1, p2, p3, p4⟩ := allocSeq_page s hs ns st hcl hl (by omega) (by omega)
      refine ⟨?_, ?_, ?_, ?_⟩
      · rw [p3, List.length_cons]
        have hone : (k + (PAGE_SIZE / s - 1) - 1) / (PAGE_SIZE / s - 1) = 1 :=
          Nat.div_eq_of_lt_le (by omega) (by omega)
        rw [hone]
      · rw [p1]
        refine List.Pairwise.imp (fun hab => Or.inl hab) ?_
        exact List.Pairwise.sublist (List.take_sublist _ _)
          (blockList_pairwise _ s (by omega))
      · intro p hp
        rw [p1] at hp
        have hpmem : p ∈ blockList ((st.nextPage + 1) * PAGE_SIZE) s :=
          List.mem_of_mem_take hp
        obtain ⟨hb1, hb2⟩ := blockList_bounds _ s h16 h2048 hdvd p hpmem
        rw [p4]
        have he : (st.nextPage + 1 + 1) * PAGE_SIZE
            = (st.nextPage + 1) * PAGE_SIZE + PAGE_SIZE := by ring
        omega
      · rw [p4]
        omega
    · push_neg at hkB
      have hsplit := List.take_append_drop (PAGE_SIZE / s - 1) ns
      have hlen1 : (ns.take (PAGE_SIZE / s - 1)).length = PAGE_SIZE / s - 1 := by
        rw [List.length_take]
        omega
      have hlen2 : (ns.drop (PAGE_SIZE / s - 1)).length = k - (PAGE_SIZE / s - 1) := by
        rw [List.length_drop]
        omega
      obtain ⟨p1, p2, p3, p4⟩ := allocSeq_page s hs (ns.take (PAGE_SIZE / s - 1)) st
        (fun n hn => hcl n (List.mem_of_mem_take hn)) hl (by omega) (by omega)
      have hempty : (allocSeq st (ns.take (PAGE_SIZE / s - 1))).2.freelists
          (roundPowersList s) = [] := by
        rw [p2, hlen1, ← blockList_length ((st.nextPage + 1) * PAGE_SIZE) s]
        exact List.drop_length _
      obtain ⟨qlen, qpw, qbnd, qlt⟩ := ih (k - (PAGE_SIZE / s - 1)) (by omega)
        (ns.drop (PAGE_SIZE / s - 1)) (allocSeq st (ns.take (PAGE_SIZE / s - 1))).2
        hlen2 (by omega) (fun n hn => hcl n (List.mem_of_mem_drop hn)) hempty
      have happ := allocSeq_append (ns.take (PAGE_SIZE / s - 1))
        (ns.drop (PAGE_SIZE / s - 1)) st
      rw [hsplit] at happ
      refine ⟨?_, ?_, ?_, ?_⟩
      · rw [happ]
        dsimp only
        rw [qlen, p3, List.length_cons]
        have harith : (k + (PAGE_SIZE / s - 1) - 1) / (PAGE_SIZE / s - 1)
            = (k - (PAGE_SIZE / s - 1) + (PAGE_SIZE / s - 1) - 1) / (PAGE_SIZE / s - 1)
              + 1 := by
          have h1 : k + (PAGE_SIZE / s - 1) - 1
              = (k - (PAGE_SIZE / s - 1) + (PAGE_SIZE / s - 1) - 1)
                + (PAGE_SIZE / s - 1) := by omega
          rw [h1, Nat.add_div_right _ (by omega)]
        rw [harith]
        omega
      · rw [happ]
        dsimp only
        rw [List.pairwise_append]
        refine ⟨?_, qpw, ?_⟩
        · rw [p1]
          refine List.Pairwise.imp (fun hab => Or.inl hab) ?_
          exact List.Pairwise.sublist (List.take_sublist _ _)
            (blockList_pairwise _ s (by omega))
        · intro a ha b hb
          left
          rw [p1] at ha
          have hamem := List.mem_of_mem_take ha
          obtain ⟨ha1, ha2⟩ := blockList_bounds _ s h16 h2048 hdvd a hamem
          have hbge := (qbnd b hb).1
          rw [p4] at hbge
          have he : (st.nextPage + 1 + 1) * PAGE_SIZE
              = (st.nextPage + 1) * PAGE_SIZE + PAGE_SIZE := by ring
          omega
      · intro p hp
        rw [happ] at hp
        dsimp only at hp
        rcases List.mem_append.mp hp with hp1 | hp2
        · rw [p1] at hp1
          have hpmem := List.mem_of_mem_take hp1
          obtain ⟨hb1, hb2⟩ := blockList_bounds _ s h16 h2048 hdvd p hpmem
          refine ⟨by omega, ?_⟩
          rw [happ]
          dsimp only
          rw [p4] at qlt
          have hfin : st.nextPage + 2
              ≤ (allocSeq (allocSeq st (ns.take (PAGE_SIZE / s - 1))).2
                  (ns.drop (PAGE_SIZE / s - 1))).2.nextPage + 1 := by omega
          have hmono := Nat.mul_le_mul_right PAGE_SIZE hfin
          have he : (st.nextPage + 2) * PAGE_SIZE
              = (st.nextPage + 1) * PAGE_SIZE + PAGE_SIZE := by ring
          omega
        · obtain ⟨hb1, hb2⟩ := qbnd p hp2
          rw [p4] at hb1
          refine ⟨?_, ?_⟩
          · have hmono : (st.nextPage + 1) * PAGE_SIZE
                ≤ (st.nextPage + 1 + 1) * PAGE_SIZE :=
              Nat.mul_le_mul_right _ (by omega)
            omega
          · rw [happ]
            dsimp only
            exact hb2
      · rw [happ]
        dsimp only
        rw [p4] at qlt
        omega

end MainRun

section C3Claim

/-- **C3.** Starting with an empty free list for a class `s` (as in a fresh
allocator), performing `k ≥ 1` consecutive allocate calls whose sizes all
classify to `s`, with no intervening frees, triggers exactly
`⌈k / blocksPerPage⌉` page-carve events — where
`blocksPerPage = PAGE_SIZE / s − 1` is the number of blocks one page
yields for that class and `⌈k / B⌉ = (k + B − 1) / B` — and no two of the
`k` returned blocks have overlapping address ranges (for any two returned
blocks, one ends at or before the other begins). -/
theorem C3_carve_count (s : Nat) (ns : List Nat) (st : AllocState) (hs : s ∈ classList)
    (hcl : ∀ n ∈ ns, ¬ 2048 < n ∧ (roundPowers (n : Int)).toNat = s)
    (hl : st.freelists (roundPowersList s) = [])
    (hk : 1 ≤ ns.length) :
    (allocSeq st ns).2.pages.length
        = st.pages.length
          + (ns.length + (PAGE_SIZE / s - 1) - 1) / (PAGE_SIZE / s - 1) ∧
    (allocSeq st ns).1.Pairwise (fun p q => p + s ≤ q ∨ q + s ≤ p) := by
  obtain ⟨c1, c2, _, _⟩ :=
    allocSeq_main s hs ns.length ns st rfl hk hcl hl
  exact ⟨c1, c2⟩

/-- Witness for C3: three class-2048 allocations from the initial state
(one block per page, so three carves) return the pairwise-disjoint blocks
6144, 10240 and 14336. -/
theorem C3_witness :
    (allocSeq initState [2048, 2048, 2048]).2.pages.length
        = (initState : AllocState).pages.length
          + (([2048, 2048, 2048] : List Nat).length + (PAGE_SIZE / 2048 - 1) - 1)
            / (PAGE_SIZE / 2048 - 1) ∧
    (allocSeq initState [2048, 2048, 2048]).1.Pairwise
      (fun p q => p + 2048 ≤ q ∨ q + 2048 ≤ p) :=
  C3_carve_count 2048 [2048, 2048, 2048] initState (by decide) (by decide) (by rfl)
    (by decide)

end C3Claim

section C8Claim

/-- `addFirst`'s link store `new->next = first` writes a pointer-sized
word — 8 bytes on the LP64 model the source targets — at the exact freed
address. -/
def LINK_STORE_BYTES : Nat := 8

/-- The header's `magic_number` tag is a 4-byte `int` at offset 0 of its
page (`header_node_t`). -/
def MAGIC_TAG_BYTES : Nat := 4

/-- The address at which an `xxfree` call performs `addFirst`'s link
store, translated from the source's control flow: `none` for the NULL
no-op and for the sentinel-rejected path (neither stores anything), and
otherwise exactly the raw freed pointer — `addFirst(freelists[index],
ptr)` casts `ptr` itself to a node and assigns its `next` field, never
rounding down to a block boundary.  The abstract `xxfree` above records
only the resulting list; this definition records where the store's bytes
land, which is what the C8 analysis needs. -/
def xxfreeStoreAddr (st : AllocState) (ptr : Nat) : Option Nat :=
  if ptr = 0 then none
  else
    let size := xxmalloc_usable_size st ptr
    if size = USABLE_INVALID then none
    else some ptr

/-- Byte ranges `[a, a + la)` and `[b, b + lb)` intersect. -/
abbrev bytesOverlap (a la b lb : Nat) : Prop := a < b + lb ∧ b < a + la

/-- **C8 (code bug).** The claim — headers are written once at carve time
and no subsequent `free` ever modifies them, with tag = sentinel exactly
for carver-produced pages — is what the code violates.  Concrete run,
every call within `xxfree`'s documented contract ("a pointer somewhere
inside the object that is being freed"): three class-1024 allocations
return 5120, 6144 and 7168, the third being the last block
`[7168, 8192)` of the page carved at 4096; a class-2048 allocation then
carves the adjacent page at 8192, whose header reads back `some 2048`.
Freeing the pointer 8190 — inside the third allocated object — passes the
magic check of page 4096, so the code performs `addFirst`'s 8-byte link
store at address 8190 (`xxfreeStoreAddr` = `some 8190`): its byte range
`[8190, 8198)` overlaps the 4-byte magic tag `[8192, 8196)` of the
adjacent carved page, mutating a carver-written header after carve time
and destroying its sentinel.  (The abstract `xxfree` elides this store,
which is why the invariant holds in the list model but not in the
program.) -/
theorem C8_code_bug_demo :
    (allocSeq initState [1024, 1024, 1024]).1 = [5120, 6144, 7168] ∧
    headerLookup (xxmallocOk (allocSeq initState [1024, 1024, 1024]).2 2048).2 8192
        = some 2048 ∧
    (7168 ≤ 8190 ∧ 8190 < 7168 + 1024) ∧
    xxfreeStoreAddr (xxmallocOk (allocSeq initState [1024, 1024, 1024]).2 2048).2 8190
        = some 8190 ∧
    bytesOverlap 8190 LINK_STORE_BYTES 8192 MAGIC_TAG_BYTES :=
  ⟨by decide, by decide, by decide, by decide, by decide⟩

end C8Claim
